import Mathlib

/-!
Verification of the waveform-composition core of `multi_nv_methods.py`
(`MultiNV_Generator`): the segment partitioner `create_pulse_partition`, the
multi-length element builder `_get_multiple_mw_mult_length_element`, the
rotation-pulse builder `get_pi_element`, the optimal-control pulse catalog
(`OptimalControlPulse`, `get_oc_pulse`, `load_optimal_pulses_from_path`) and the
parameter vector builder `_create_param_array`.

Machine floats are embedded as exact rationals (`ℚ`); the float literals
`1e-15` and `1e-99` of the source become the exact rationals `eps15` and
`amp_placeholder`.  A float `NaN` (used by the source as an invalid-phase
marker) is embedded as `none` in `Option ℚ`.  Python exceptions (ValueError,
NotImplementedError, TypeError, numpy IndexError) are embedded as
`Except.error`.  Python `sorted` is a stable sort; it is embedded with
`List.insertionSort`, which is also stable.
-/

namespace MultiNV

/-- A sorting key on `(length, amp, channel)` triples: Python
`sorted(zip(lengths, amps, range(n_ch)), key=lambda x: x[0])`
(source line 2526) compares the first component. -/
def byLen (a b : ℚ × ℚ × ℕ) : Prop := a.1 ≤ b.1

instance : DecidableRel byLen := fun a b => inferInstanceAs (Decidable (a.1 ≤ b.1))

instance : IsTotal (ℚ × ℚ × ℕ) byLen := ⟨fun a b => le_total a.1 b.1⟩

instance : IsTrans (ℚ × ℚ × ℕ) byLen := ⟨fun _ _ _ => le_trans⟩

/-- A sorting key on `(amp, channel)` pairs: Python
`sorted(zip(amps_part, chs_part), key=lambda x: x[1])` (source line 2543)
compares the second component. -/
def byCh (a b : ℚ × ℕ) : Prop := a.2 ≤ b.2

instance : DecidableRel byCh := fun a b => inferInstanceAs (Decidable (a.2 ≤ b.2))

instance : IsTotal (ℚ × ℕ) byCh := ⟨fun a b => le_total a.2 b.2⟩

instance : IsTrans (ℚ × ℕ) byCh := ⟨fun _ _ _ => le_trans⟩

/-- Source line 2543: restore the original channel order of the per-channel
amplitudes by sorting `(amp, channel)` pairs on the channel index and
projecting out the amplitudes. -/
def restoreOrder (pairs : List (ℚ × ℕ)) : List ℚ :=
  (List.insertionSort byCh pairs).map Prod.fst

/-- Source lines 2530, 2535-2537: `chs_part`, the channel index of each entry
of the length-sorted list, positions `idx_ch = 0 .. n_ch - 1`.  Out-of-range
indexing (possible in Python only for unequal-length inputs, where it raises)
is embedded with `getD`. -/
def chsPart (length_amps : List (ℚ × ℚ × ℕ)) (n_ch : ℕ) : List ℕ :=
  (List.range n_ch).map fun idx_ch => (length_amps.getD idx_ch default).2.2

/-- Source lines 2529, 2535-2540: `amps_part` for step `idx_part`; the entry at
sorted position `idx_ch` is `amps[ch]` when `idx_part <= idx_ch` (the channel
has not yet switched off) and the initialised `0` otherwise. -/
def ampsPart (amps : List ℚ) (length_amps : List (ℚ × ℚ × ℕ)) (n_ch idx_part : ℕ) :
    List ℚ :=
  (List.range n_ch).map fun idx_ch =>
    if idx_part ≤ idx_ch then amps.getD (length_amps.getD idx_ch default).2.2 0 else 0

/-- Source lines 2535-2543: the amplitude vector of partition step `idx_part`,
restored to original channel order. -/
def ampsRestored (amps : List ℚ) (length_amps : List (ℚ × ℚ × ℕ)) (n_ch idx_part : ℕ) :
    List ℚ :=
  restoreOrder ((ampsPart amps length_amps n_ch idx_part).zip (chsPart length_amps n_ch))

/-- Source line 2532: `np.sum([p[0] for p in partition_blocks])`, the total
duration of the partition blocks emitted so far. -/
def totalDur (partition_blocks : List (ℚ × List ℚ)) : ℚ :=
  (partition_blocks.map Prod.fst).sum

/-- Source lines 2528-2546: one iteration of the partition loop.  The segment
duration is the current sorted length minus the total duration emitted so far;
segments of non-positive duration are dropped (line 2545). -/
def partStep (amps : List ℚ) (length_amps : List (ℚ × ℚ × ℕ)) (n_ch : ℕ)
    (partition_blocks : List (ℚ × List ℚ)) (idx_part : ℕ) : List (ℚ × List ℚ) :=
  let t_so_far : ℚ := totalDur partition_blocks
  let lenght_part : ℚ := (length_amps.getD idx_part default).1 - t_so_far
  if 0 < lenght_part then
    partition_blocks ++ [(lenght_part, ampsRestored amps length_amps n_ch idx_part)]
  else partition_blocks

/-- Source line 2526: `length_amps`, the channel requests `(length, amp,
channel index)` ordered by requested length, retaining original channel
identity (Python `sorted` with key `x[0]`, a stable sort). -/
def sortedChans (lengths amps : List ℚ) : List (ℚ × ℚ × ℕ) :=
  List.insertionSort byLen (lengths.zip (amps.zip (List.range lengths.length)))

/-- Source lines 2512-2548 (`create_pulse_partition` inside
`_get_multiple_mw_mult_length_element`): partition possibly different
per-channel lengths into an ordered list of `(duration, amplitude vector)`
segments.  Channels are ordered by requested duration (stable sort, line 2526)
and the loop enumerates the sorted list. -/
def create_pulse_partition (lengths amps : List ℚ) : List (ℚ × List ℚ) :=
  let n_ch := lengths.length
  let length_amps := sortedChans lengths amps
  (List.range length_amps.length).foldl (partStep amps length_amps n_ch) []

/-- The total duration, for a given channel, of the partition segments in which
that channel carries nonzero amplitude. -/
def activeDurationSum (ch : ℕ) (blocks : List (ℚ × List ℚ)) : ℚ :=
  ((blocks.filter fun b => b.2.getD ch 0 ≠ 0).map Prod.fst).sum

/-- Modelled from the spec (§3 PulseElement): the element produced by the base
class helper `_get_multiple_mw_element` (not under src/) records an initial
duration, a per-sweep-step duration increment and the per-line amplitude,
frequency and phase arrays.  A `none` phase stands for float NaN. -/
structure MWElement where
  init_length_s : ℚ
  increment_s : ℚ
  amps : List ℚ
  freqs : List ℚ
  phases : List (Option ℚ)
deriving DecidableEq

instance : Inhabited MWElement := ⟨⟨0, 0, [], [], []⟩⟩

/-- The float literal `1e-15` of `sanitize_lengths` (source line 2557). -/
def eps15 : ℚ := 1 / 10 ^ 15

/-- The float literal `1e-99` of `get_pi_element` (source line 2421). -/
def amp_placeholder : ℚ := 1 / 10 ^ 99

/-- Source lines 2559-2563 (`nan_phase_2_zero_ampl`): channels whose phase is
marked NaN (`none`) are forced to zero amplitude. -/
def nan_phase_2_zero_ampl (phases : List (Option ℚ)) (amps : List ℚ) : List ℚ :=
  amps.mapIdx fun idx a => if phases.getD idx (some 0) = none then 0 else a

/-- Source lines 2550-2557 (`sanitize_lengths`): a zero length whose increment
is nonzero is replaced by the placeholder length `1e-15` so that the partition
does not eliminate the swept block. -/
def sanitize_lengths (lengths increments : List ℚ) : List ℚ :=
  lengths.mapIdx fun idx len_i => if len_i = 0 ∧ increments.getD idx 0 ≠ 0 then eps15 else len_i

/-- The number of distinct values of a list, `len(np.unique(xs))`. -/
def npUniqueCount (xs : List ℚ) : ℕ := xs.dedup.length

/-- Source lines 2481-2583 (`_get_multiple_mw_mult_length_element`), for list
arguments; a Python scalar `increments=0` is coerced to `[0]*len(lengths)` by
source lines 2495-2498, which callers of the embedding perform with
`List.replicate`.  Divergent increments and unequal array lengths raise
(lines 2507-2510); the partition blocks are turned into elements, the first
block alone carrying `increments[0]` (line 2576). -/
def _get_multiple_mw_mult_length_element (lengths increments amps freqs : List ℚ)
    (phases : List (Option ℚ)) : Except String (List MWElement) :=
  if 1 < npUniqueCount increments then
    .error "NotImplementedError: can only create multi mw elements with equal increments"
  else if 1 < ([lengths.length, increments.length, amps.length, freqs.length,
      phases.length].dedup).length then
    .error "ValueError: Parameters must be arrays of same length"
  else
    let amps1 := nan_phase_2_zero_ampl phases amps
    let lengths1 := sanitize_lengths lengths increments
    let part_blocks := create_pulse_partition lengths1 amps1
    .ok (part_blocks.enum.map fun ib =>
      MWElement.mk ib.2.1 (if ib.1 = 0 then increments.getD 0 0 else 0) ib.2.2 freqs phases)

deriving instance DecidableEq for Except

/-- Source lines 46-52 (`OptimalControlPulse.__init__`): descriptor of one
pre-computed optimal-control pulse; `on_nv` is the target subsystem, `pi_x`
the rotation fraction, `file_i` and `file_q` the two envelope files (the
search pulse of `get_oc_pulse` leaves them at `None`, embedded as `""`). -/
structure OptimalControlPulse where
  on_nv : ℚ
  pi_x : ℚ
  file_i : String
  file_q : String
deriving DecidableEq

instance : Inhabited OptimalControlPulse := ⟨⟨1, 1, "", ""⟩⟩

/-- Source lines 54-57 (`OptimalControlPulse.equal_target_u`): equality of the
implemented target unitary is decided by `(on_nv, pi_x)` alone. -/
def equal_target_u (self other : OptimalControlPulse) : Bool :=
  decide (self.on_nv = other.on_nv ∧ self.pi_x = other.pi_x)

/-- Source lines 134-143 (`get_oc_pulse`): collect every catalog pulse whose
`(on_nv, pi_x)` equals the searched one; `optimal_pulses` is the object field
`self._optimal_pulses`. -/
def get_oc_pulse (optimal_pulses : List OptimalControlPulse) (on_nv : ℚ) (pix : ℚ) :
    List OptimalControlPulse :=
  optimal_pulses.filter fun pulse => equal_target_u pulse ⟨on_nv, pix, "", ""⟩

/-- Source lines 145-208 (`load_optimal_pulses_from_path`).  The directory
scan, i/q file pairing and filename parsing use helpers from
`user_scripts.Timo.own.console_toolkit` (not under src/); `candidates` is the
list of pulses already parsed from the file pairs that survive the pairing
filter (one per retained in-phase file, in directory order, source lines
175-198).  `optimal_pulses` is the object field `self._optimal_pulses` that
`get_oc_pulse` reads at line 199: source lines 79-86 set it to `[]` before
`_init_optimal_control` calls this loader.  A candidate whose `(on_nv, pi_x)`
is already present in *that field* is skipped with a warning (lines 201-206);
all other candidates are appended to the local `loaded_pulses` list. -/
def load_optimal_pulses_from_path (optimal_pulses candidates : List OptimalControlPulse) :
    List OptimalControlPulse :=
  candidates.foldl
    (fun loaded_pulses oc_pulse =>
      if (get_oc_pulse optimal_pulses oc_pulse.on_nv oc_pulse.pi_x).length ≠ 0 then
        loaded_pulses
      else loaded_pulses ++ [oc_pulse])
    []

/-- Modelled from the spec (§6, §4.4): the envelope-mode selector
`EnvelopeMethods` is imported from `sampling_function_defs` (not under src/);
the spec declares the selector set {rectangular, optimal}. -/
inductive EnvelopeMethods where
  | rectangle
  | optimal
deriving DecidableEq

/-- Modelled from the spec (§2, §4.4): the external generation method
`oc_mw_multi_only` (not under src/) that `_get_pi_oc_element` calls at source
lines 2368-2372 to turn (frequencies, phases, envelope file names) into the
pulse elements of one optimal pulse; embedded as an opaque-free function
parameter supplied by each theorem. -/
abbrev OcGenFn := List ℚ → List ℚ → List String → List String → List MWElement

/-- Source lines 2356-2365: the catalog-lookup loop of `_get_pi_oc_element` —
for every target subsystem, exactly one catalog match is required (length-1
check at line 2359, ValueError otherwise); the i/q file names of the matches
are accumulated in order.  `os.path.basename` is embedded as the identity
(the embedded catalog stores bare file names). -/
def collect_oc_files (cat : List OptimalControlPulse) (pix : ℚ) :
    List ℚ → Except String (List String × List String)
  | [] => .ok ([], [])
  | nv :: rest =>
    match get_oc_pulse cat nv pix with
    | [oc_pulse] =>
      match collect_oc_files cat pix rest with
      | .error e => .error e
      | .ok (file_i, file_q) => .ok (oc_pulse.file_i :: file_i, oc_pulse.file_q :: file_q)
    | _ => .error "ValueError: Could not find optimal pulse with given params in assets path"

/-- Source lines 2347-2376 (`_get_pi_oc_element`): a scalar `on_nv` is wrapped
into a list (lines 2349-2350, callers of the embedding do this); `on_nv=None`
reaches `len(on_nv)` in the length check of line 2352 and raises a TypeError,
embedded as the `none` branch; unequal argument lengths raise (lines
2352-2354); then the catalog is consulted per subsystem and the external
generator is invoked on the collected file names. -/
def _get_pi_oc_element (ocGen : OcGenFn) (cat : List OptimalControlPulse)
    (phases freqs : List ℚ) (on_nv : Option (List ℚ)) (pi_x_length : ℚ) :
    Except String (List MWElement) :=
  match on_nv with
  | none => .error "TypeError: object of type NoneType has no len"
  | some onv =>
    if phases.length = freqs.length ∧ freqs.length = onv.length then
      match collect_oc_files cat pi_x_length onv with
      | .error e => .error e
      | .ok (file_i, file_q) => .ok (ocGen freqs phases file_i file_q)
    else
      .error "ValueError: Optimal pulses require same length of phase, freq, on_nv arrays"

/-- Embedding of numpy boolean-mask indexing `arr[mask]`; numpy requires the
mask length to equal the array length (callers check it and raise IndexError
on mismatch). -/
def maskSelect (xs : List ℚ) (mask : List Bool) : List ℚ :=
  ((xs.zip mask).filter fun p => p.2).map Prod.fst

/-- Source lines 2408-2448 (`get_pi_element`).  When `no_amps_2_idle` is set
and no channel has a nonzero amplitude, all amplitudes are coerced to the
placeholder `1e-99` and the envelope to rectangular (lines 2419-2422).  The
masked lengths/amplitudes/frequencies are computed with numpy boolean
indexing (lines 2424-2429): a frequency or rabi-period array whose length
differs from the amplitude array raises an IndexError there, embedded as the
explicit length check.  A zero `pi_x_length` returns the empty element list
(lines 2433-2434); the rectangular envelope delegates to the multi-length
builder with scalar increment 0 (coerced to a zero list by lines 2495-2498);
the optimal envelope delegates to `_get_pi_oc_element` (on the rectangular
path a supplied `on_nv` only logs a warning, line 2437-2438). -/
def get_pi_element (ocGen : OcGenFn) (cat : List OptimalControlPulse)
    (xphase : ℚ) (mw_freqs mw_amps rabi_periods : List ℚ) (pi_x_length : ℚ)
    (no_amps_2_idle : Bool) (env_type : EnvelopeMethods) (on_nv : Option (List ℚ)) :
    Except String (List MWElement) :=
  let coerce : Bool := no_amps_2_idle && decide ((mw_amps.filter fun a => a ≠ 0) = [])
  let mw_amps1 := if coerce then List.replicate mw_amps.length amp_placeholder else mw_amps
  let env_type1 := if coerce then EnvelopeMethods.rectangle else env_type
  if rabi_periods.length ≠ mw_amps1.length ∨ mw_freqs.length ≠ mw_amps1.length then
    .error "IndexError: boolean index did not match indexed array"
  else
    let mask := mw_amps1.map fun a => decide (a ≠ 0)
    let n_lines := (mw_amps1.filter fun a => a ≠ 0).length
    let lenghts := maskSelect (rabi_periods.map fun t => pi_x_length * t / 2) mask
    let phases : List ℚ := List.replicate n_lines xphase
    let amps := mw_amps1.filter fun a => a ≠ 0
    let fs := maskSelect mw_freqs mask
    if pi_x_length = 0 then .ok []
    else
      match env_type1 with
      | .rectangle =>
        _get_multiple_mw_mult_length_element lenghts (List.replicate lenghts.length 0)
          amps fs (phases.map some)
      | .optimal => _get_pi_oc_element ocGen cat phases fs on_nv pi_x_length

/-- A fixed trivial external generator, used to instantiate `OcGenFn` in
closed statements. -/
def cGen0 : OcGenFn := fun _ _ _ _ => []

/-- Source lines 2599-2603 (`sublists` inside `_create_param_array`): chunks
of size `n` (`inlist[i:i+n]` for `i in range(0, len(inlist), n)`); a zero
chunk size raises in Python (range step 0) and is unreachable from the
settled claims. -/
def sublists (l : List ℚ) (n : ℕ) : List (List ℚ) :=
  (List.range ((l.length + n - 1) / n)).map fun i => (l.drop (i * n)).take n

/-- A sorting key on `(chunk, label)` pairs: Python
`sorted(zip(parama_per_nv, order_nvs), key=lambda tup: tup[1])` (source line
2613) compares the label. -/
def byLabel (a b : List ℚ × ℕ) : Prop := a.2 ≤ b.2

instance : DecidableRel byLabel := fun a b => inferInstanceAs (Decidable (a.2 ≤ b.2))

/-- Source lines 2585-2632 (`_create_param_array`).  Python truthiness at line
2605 (`[in_value] if in_value else []`) drops a zero (or `None`) primary
value; `in_value = 0` embeds both falsy cases.  `order_nvs` is the
already-parsed label list (`csv_2_list` is external to src/); supplying it
without `n_nvs` raises a TypeError at line 2612.  With both `n_nvs` and
`idx_nv` given, an out-of-range index raises (lines 2619-2620); otherwise the
chunk size is `int(len/n_nvs)` — truncating integer division, with no
divisibility check — and every entry outside the selected chunk is zeroed
(lines 2622-2626). -/
def _create_param_array (in_value : ℚ) (in_list : List ℚ) (n_nvs : Option ℕ)
    (idx_nv : Option ℕ) (order_nvs : Option (List ℕ)) : Except String (List ℚ) :=
  let array := if in_value ≠ 0 then [in_value] else []
  let all_nv_params := array ++ in_list
  match order_nvs, n_nvs with
  | some _, none => .error "TypeError: unsupported operand for len and NoneType"
  | order?, n? =>
    let all2 :=
      match order?, n? with
      | some order, some n =>
        let parama_per_nv := sublists all_nv_params (all_nv_params.length / n)
        (((parama_per_nv.zip order).insertionSort byLabel).map Prod.fst).flatten
      | _, _ => all_nv_params
    match n_nvs, idx_nv with
    | some n, some idx =>
      if idx ≥ n then .error "ValueError: Index of NV outside range"
      else
        let len_single_nv := all2.length / n
        let i_start := idx * len_single_nv
        let i_end := i_start + len_single_nv
        .ok ((List.range all2.length).map fun i =>
          if i_start ≤ i ∧ i < i_end then all2.getD i 0 else 0)
    | _, _ => .ok all2

theorem restoreOrder_getD (pairs : List (ℚ × ℕ))
    (hperm : (pairs.map Prod.snd).Perm (List.range pairs.length))
    (p : ℚ × ℕ) (hp : p ∈ pairs) :
    (restoreOrder pairs).getD p.2 0 = p.1 := by
  classical
  have htp : (List.insertionSort byCh pairs).Perm pairs := List.perm_insertionSort byCh pairs
  set t := List.insertionSort byCh pairs with ht
  have hts : List.Sorted byCh t := List.sorted_insertionSort byCh pairs
  have hlen : t.length = pairs.length := htp.length_eq
  have hmapperm : (t.map Prod.snd).Perm (List.range pairs.length) :=
    (htp.map Prod.snd).trans hperm
  have hmapsorted : List.Sorted (fun a b => a ≤ b) (t.map Prod.snd) := by
    rw [List.Sorted, List.pairwise_map]
    exact hts
  have heq : t.map Prod.snd = List.range pairs.length :=
    List.eq_of_perm_of_sorted hmapperm hmapsorted (List.sorted_le_range _)
  have hpt : p ∈ t := htp.mem_iff.mpr hp
  obtain ⟨i, hi, hig⟩ := List.mem_iff_getElem.mp hpt
  have hi2 : i < (t.map Prod.snd).length := by simpa using hi
  have h2 : p.2 = i := by
    have e1 : (t.map Prod.snd).getD i 0 = p.2 := by
      rw [List.getD_eq_getElem _ _ hi2, List.getElem_map, hig]
    have e2 : (List.range pairs.length).getD i 0 = i := by
      have hi3 : i < (List.range pairs.length).length := by
        simpa [hlen] using hi
      rw [List.getD_eq_getElem _ _ hi3, List.getElem_range]
    rw [heq, e2] at e1
    exact e1.symm
  have hi4 : i < (t.map Prod.fst).length := by simpa using hi
  rw [restoreOrder, ← ht, h2, List.getD_eq_getElem _ _ hi4, List.getElem_map, hig]

theorem sortedChans_perm (lengths amps : List ℚ) :
    (sortedChans lengths amps).Perm
      (lengths.zip (amps.zip (List.range lengths.length))) :=
  List.perm_insertionSort byLen _

theorem sortedChans_sorted (lengths amps : List ℚ) :
    List.Sorted byLen (sortedChans lengths amps) :=
  List.sorted_insertionSort byLen _

theorem zip3_length (lengths amps : List ℚ) (hlen : amps.length = lengths.length) :
    (lengths.zip (amps.zip (List.range lengths.length))).length = lengths.length := by
  simp [List.length_zip, hlen]

theorem sortedChans_length (lengths amps : List ℚ) (hlen : amps.length = lengths.length) :
    (sortedChans lengths amps).length = lengths.length := by
  rw [(sortedChans_perm lengths amps).length_eq, zip3_length lengths amps hlen]

theorem zip3_map_ch (lengths amps : List ℚ) (hlen : amps.length = lengths.length) :
    (lengths.zip (amps.zip (List.range lengths.length))).map (fun x => x.2.2)
      = List.range lengths.length := by
  have h1 : (lengths.zip (amps.zip (List.range lengths.length))).map Prod.snd
      = amps.zip (List.range lengths.length) := by
    apply List.map_snd_zip
    simp [List.length_zip, hlen]
  have h2 : (amps.zip (List.range lengths.length)).map Prod.snd
      = List.range lengths.length := by
    apply List.map_snd_zip
    simp [hlen]
  calc (lengths.zip (amps.zip (List.range lengths.length))).map (fun x => x.2.2)
      = ((lengths.zip (amps.zip (List.range lengths.length))).map Prod.snd).map Prod.snd := by
        rw [List.map_map]; rfl
    _ = List.range lengths.length := by rw [h1, h2]

theorem sortedChans_map_ch_perm (lengths amps : List ℚ)
    (hlen : amps.length = lengths.length) :
    ((sortedChans lengths amps).map (fun x => x.2.2)).Perm (List.range lengths.length) := by
  have := (sortedChans_perm lengths amps).map (fun x => x.2.2)
  rwa [zip3_map_ch lengths amps hlen] at this

theorem sortedChans_mem (lengths amps : List ℚ) (hlen : amps.length = lengths.length)
    (c : ℕ) (hc : c < lengths.length) :
    (lengths.getD c 0, amps.getD c 0, c) ∈ sortedChans lengths amps := by
  rw [(sortedChans_perm lengths amps).mem_iff]
  have hc2 : c < (lengths.zip (amps.zip (List.range lengths.length))).length := by
    rw [zip3_length lengths amps hlen]; exact hc
  have hval : (lengths.zip (amps.zip (List.range lengths.length))).getD c default
      = (lengths.getD c 0, amps.getD c 0, c) := by
    rw [List.getD_eq_getElem _ _ hc2, List.getElem_zip, List.getElem_zip]
    rw [List.getD_eq_getElem _ _ hc, List.getD_eq_getElem _ _ (by rw [hlen]; exact hc)]
    simp [List.getElem_range]
  rw [List.getD_eq_getElem _ _ hc2] at hval
  rw [← hval]
  exact List.getElem_mem hc2

theorem sortedChans_mono (lengths amps : List ℚ) (i j : ℕ) (hij : i ≤ j)
    (hj : j < (sortedChans lengths amps).length) :
    ((sortedChans lengths amps).getD i default).1
      ≤ ((sortedChans lengths amps).getD j default).1 := by
  rcases Nat.lt_or_ge i j with hlt | hge
  · have hi : i < (sortedChans lengths amps).length := lt_trans hlt hj
    rw [List.getD_eq_getElem _ _ hi, List.getD_eq_getElem _ _ hj]
    exact (List.pairwise_iff_getElem.mp (sortedChans_sorted lengths amps)) i j hi hj hlt
  · have hij2 : i = j := le_antisymm hij hge
    subst hij2
    exact le_refl _

theorem sortedChans_nonneg (lengths amps : List ℚ)
    (hdur : ∀ d ∈ lengths, 0 ≤ d) (i : ℕ)
    (hi : i < (sortedChans lengths amps).length) :
    0 ≤ ((sortedChans lengths amps).getD i default).1 := by
  rw [List.getD_eq_getElem _ _ hi]
  have hmem : (sortedChans lengths amps)[i] ∈ sortedChans lengths amps :=
    List.getElem_mem hi
  rw [(sortedChans_perm lengths amps).mem_iff] at hmem
  have hmem2 : (((sortedChans lengths amps)[i]).1, ((sortedChans lengths amps)[i]).2)
      ∈ lengths.zip (amps.zip (List.range lengths.length)) := by
    rw [Prod.mk.eta]
    exact hmem
  exact hdur _ (List.of_mem_zip hmem2).1

theorem chsPart_map (s : List (ℚ × ℚ × ℕ)) (n : ℕ) (h : s.length = n) :
    chsPart s n = s.map (fun x => x.2.2) := by
  apply List.ext_getElem
  · simp [chsPart, h]
  · intro i h1 h2
    have hi : i < s.length := by simpa using h2
    simp only [chsPart, List.getElem_map, List.getElem_range]
    rw [List.getD_eq_getElem _ _ hi]

theorem chsPart_length (s : List (ℚ × ℚ × ℕ)) (n : ℕ) : (chsPart s n).length = n := by
  simp [chsPart]

theorem ampsPart_length (amps : List ℚ) (s : List (ℚ × ℚ × ℕ)) (n j : ℕ) :
    (ampsPart amps s n j).length = n := by
  simp [ampsPart]

theorem ampsRestored_getD (lengths amps : List ℚ) (hlen : amps.length = lengths.length)
    (j c p : ℕ) (hp : p < lengths.length)
    (hsp : (sortedChans lengths amps).getD p default = (lengths.getD c 0, amps.getD c 0, c)) :
    (ampsRestored amps (sortedChans lengths amps) lengths.length j).getD c 0
      = if j ≤ p then amps.getD c 0 else 0 := by
  classical
  set s := sortedChans lengths amps with hs
  set n := lengths.length with hn
  have hslen : s.length = n := sortedChans_length lengths amps hlen
  have hpl : ((ampsPart amps s n j).zip (chsPart s n)).length = n := by
    simp [List.length_zip, ampsPart_length, chsPart_length]
  have hperm : (((ampsPart amps s n j).zip (chsPart s n)).map Prod.snd).Perm
      (List.range ((ampsPart amps s n j).zip (chsPart s n)).length) := by
    have hsnd : ((ampsPart amps s n j).zip (chsPart s n)).map Prod.snd = chsPart s n := by
      apply List.map_snd_zip
      rw [ampsPart_length, chsPart_length]
    rw [hpl, hsnd, chsPart_map s n hslen]
    exact sortedChans_map_ch_perm lengths amps hlen
  have hpz : p < ((ampsPart amps s n j).zip (chsPart s n)).length := by
    rw [hpl]
    exact hp
  have hq : ((ampsPart amps s n j).zip (chsPart s n)).getD p default
      = (if j ≤ p then amps.getD c 0 else 0, c) := by
    rw [List.getD_eq_getElem _ _ hpz]
    simp only [List.getElem_zip, ampsPart, chsPart, List.getElem_map, List.getElem_range]
    rw [hsp]
  rw [List.getD_eq_getElem _ _ hpz] at hq
  have hmem : (if j ≤ p then amps.getD c 0 else 0, c)
      ∈ (ampsPart amps s n j).zip (chsPart s n) := by
    rw [← hq]
    exact List.getElem_mem hpz
  have hmain := restoreOrder_getD _ hperm _ hmem
  simpa [ampsRestored] using hmain

/-- The partition loop stopped after its first `k` iterations. -/
def partitionPrefix (lengths amps : List ℚ) (k : ℕ) : List (ℚ × List ℚ) :=
  (List.range k).foldl (partStep amps (sortedChans lengths amps) lengths.length) []

theorem create_pulse_partition_eq_partitionPrefix (lengths amps : List ℚ) :
    create_pulse_partition lengths amps
      = partitionPrefix lengths amps (sortedChans lengths amps).length := rfl

theorem partitionPrefix_succ (lengths amps : List ℚ) (k : ℕ) :
    partitionPrefix lengths amps (k + 1)
      = partStep amps (sortedChans lengths amps) lengths.length
          (partitionPrefix lengths amps k) k := by
  rw [partitionPrefix, List.range_succ, List.foldl_append, List.foldl_cons, List.foldl_nil]
  rfl

theorem partStep_eq (amps : List ℚ) (s : List (ℚ × ℚ × ℕ)) (n j : ℕ)
    (bs : List (ℚ × List ℚ)) :
    partStep amps s n bs j
      = if 0 < (s.getD j default).1 - totalDur bs then
          bs ++ [((s.getD j default).1 - totalDur bs, ampsRestored amps s n j)]
        else bs := rfl

theorem totalDur_append (bs : List (ℚ × List ℚ)) (b : ℚ × List ℚ) :
    totalDur (bs ++ [b]) = totalDur bs + b.1 := by
  simp [totalDur]

theorem activeDurationSum_append (c : ℕ) (bs : List (ℚ × List ℚ)) (b : ℚ × List ℚ) :
    activeDurationSum c (bs ++ [b])
      = activeDurationSum c bs + (if b.2.getD c 0 ≠ 0 then b.1 else 0) := by
  rw [activeDurationSum, activeDurationSum, List.filter_append, List.map_append,
    List.sum_append]
  congr 1
  by_cases hb : b.2.getD c 0 ≠ 0
  · rw [if_pos hb, List.filter_cons, List.filter_nil]
    rw [List.getD_eq_getElem?_getD] at hb
    simp [hb]
  · rw [if_neg hb, List.filter_cons, List.filter_nil]
    rw [not_not] at hb
    rw [List.getD_eq_getElem?_getD] at hb
    simp [hb]

theorem partitionPrefix_totalDur (lengths amps : List ℚ)
    (hlen : amps.length = lengths.length) (hdur : ∀ d ∈ lengths, 0 ≤ d)
    (k : ℕ) (hk : k ≤ lengths.length) :
    totalDur (partitionPrefix lengths amps k)
      = if k = 0 then 0 else ((sortedChans lengths amps).getD (k - 1) default).1 := by
  induction k with
  | zero => simp [partitionPrefix, totalDur]
  | succ m ih =>
    have hm : m ≤ lengths.length := Nat.le_of_succ_le hk
    have hslen : (sortedChans lengths amps).length = lengths.length :=
      sortedChans_length lengths amps hlen
    have hmlt : m < (sortedChans lengths amps).length := by
      rw [hslen]; exact hk
    have ihm := ih hm
    rw [partitionPrefix_succ, partStep_eq, if_neg (Nat.succ_ne_zero m), Nat.add_sub_cancel]
    by_cases hc : 0 < ((sortedChans lengths amps).getD m default).1
        - totalDur (partitionPrefix lengths amps m)
    · rw [if_pos hc, totalDur_append]
      ring
    · rw [if_neg hc]
      push_neg at hc
      by_cases hm0 : m = 0
      · rw [ihm, if_pos hm0] at hc
        have h0 : 0 ≤ ((sortedChans lengths amps).getD m default).1 :=
          sortedChans_nonneg lengths amps hdur m hmlt
        rw [ihm, if_pos hm0]
        subst hm0
        linarith
      · rw [ihm, if_neg hm0] at hc
        have hmono : ((sortedChans lengths amps).getD (m - 1) default).1
            ≤ ((sortedChans lengths amps).getD m default).1 :=
          sortedChans_mono lengths amps (m - 1) m (Nat.sub_le m 1) hmlt
        rw [ihm, if_neg hm0]
        linarith

theorem partitionPrefix_active (lengths amps : List ℚ)
    (hlen : amps.length = lengths.length) (hdur : ∀ d ∈ lengths, 0 ≤ d)
    (c p : ℕ) (hp : p < lengths.length)
    (hsp : (sortedChans lengths amps).getD p default = (lengths.getD c 0, amps.getD c 0, c))
    (hac : amps.getD c 0 ≠ 0)
    (k : ℕ) (hk : k ≤ lengths.length) :
    activeDurationSum c (partitionPrefix lengths amps k)
      = if k ≤ p + 1 then totalDur (partitionPrefix lengths amps k)
        else ((sortedChans lengths amps).getD p default).1 := by
  induction k with
  | zero => simp [partitionPrefix, activeDurationSum, totalDur]
  | succ m ih =>
    have hm : m ≤ lengths.length := Nat.le_of_succ_le hk
    have ihm := ih hm
    have hamps := ampsRestored_getD lengths amps hlen m c p hp hsp
    rw [partitionPrefix_succ, partStep_eq]
    by_cases hc : 0 < ((sortedChans lengths amps).getD m default).1
        - totalDur (partitionPrefix lengths amps m)
    · rw [if_pos hc, activeDurationSum_append, totalDur_append]
      by_cases hmp : m ≤ p
      · rw [hamps, if_pos hmp] at *
        rw [if_pos (by omega : m + 1 ≤ p + 1)]
        rw [ihm, if_pos (by omega : m ≤ p + 1)]
        rw [if_pos hac]
      · rw [hamps, if_neg hmp] at *
        have hne : ¬ ((0 : ℚ) ≠ 0) := by simp
        rw [if_neg hne, add_zero]
        rw [if_neg (by omega : ¬ m + 1 ≤ p + 1)]
        by_cases hmp1 : m = p + 1
        · rw [ihm, if_pos (by omega : m ≤ p + 1)]
          have htot := partitionPrefix_totalDur lengths amps hlen hdur m hm
          rw [htot, if_neg (by omega : ¬ m = 0), (by omega : m - 1 = p)]
        · rw [ihm, if_neg (by omega : ¬ m ≤ p + 1)]
    · rw [if_neg hc]
      by_cases hm1 : m + 1 ≤ p + 1
      · rw [if_pos hm1, ihm, if_pos (by omega : m ≤ p + 1)]
      · rw [if_neg hm1]
        by_cases hmp1 : m = p + 1
        · rw [ihm, if_pos (by omega : m ≤ p + 1)]
          have htot := partitionPrefix_totalDur lengths amps hlen hdur m hm
          rw [htot, if_neg (by omega : ¬ m = 0), (by omega : m - 1 = p)]
        · rw [ihm, if_neg (by omega : ¬ m ≤ p + 1)]

/-- C1: Segment Partitioner completeness — with equal-length channel request
arrays, every channel of nonzero amplitude and nonnegative requested duration
(phases, already applied upstream by `nan_phase_2_zero_ampl`, marked valid),
the sum of the durations of the returned segments in which a channel carries
nonzero amplitude equals exactly that channel's requested duration. -/
theorem c1_partition_completeness (lengths amps : List ℚ)
    (hlen : amps.length = lengths.length)
    (hamp : ∀ a ∈ amps, a ≠ 0) (hdur : ∀ d ∈ lengths, 0 ≤ d)
    (c : ℕ) (hc : c < lengths.length) :
    activeDurationSum c (create_pulse_partition lengths amps) = lengths.getD c 0 := by
  have hslen : (sortedChans lengths amps).length = lengths.length :=
    sortedChans_length lengths amps hlen
  have hmem := sortedChans_mem lengths amps hlen c hc
  obtain ⟨p, hpl, hpe⟩ := List.mem_iff_getElem.mp hmem
  have hp : p < lengths.length := by rw [← hslen]; exact hpl
  have hsp : (sortedChans lengths amps).getD p default
      = (lengths.getD c 0, amps.getD c 0, c) := by
    rw [List.getD_eq_getElem _ _ hpl, hpe]
  have hca : c < amps.length := by rw [hlen]; exact hc
  have hac : amps.getD c 0 ≠ 0 := by
    rw [List.getD_eq_getElem _ _ hca]
    exact hamp _ (List.getElem_mem hca)
  have hmain := partitionPrefix_active lengths amps hlen hdur c p hp hsp hac
    lengths.length (le_refl _)
  rw [create_pulse_partition_eq_partitionPrefix, hslen, hmain]
  by_cases hnp : lengths.length ≤ p + 1
  · have hnp1 : lengths.length = p + 1 := by omega
    rw [if_pos hnp]
    have htot := partitionPrefix_totalDur lengths amps hlen hdur lengths.length (le_refl _)
    rw [htot, if_neg (by omega : ¬ lengths.length = 0), (by omega : lengths.length - 1 = p),
      hsp]
  · rw [if_neg hnp, hsp]

/-- C6 (amended): in every successful call to the multi-length element
builder, every returned segment after the first carries increment zero, and
the first returned segment (when at least one segment is returned) carries
the common requested increment `increments[0]`; hence at most one returned
segment carries a nonzero duration increment. -/
theorem c6_swept_term_uniqueness (lengths increments amps freqs : List ℚ)
    (phases : List (Option ℚ)) (blocks : List MWElement)
    (h : _get_multiple_mw_mult_length_element lengths increments amps freqs phases
        = .ok blocks) :
    (∀ i : ℕ, 0 < i → ∀ hi : i < blocks.length, (blocks.get ⟨i, hi⟩).increment_s = 0)
  ∧ (∀ b : MWElement, blocks.head? = some b → b.increment_s = increments.getD 0 0) := by
  rw [_get_multiple_mw_mult_length_element] at h
  split at h
  · simp at h
  · split at h
    · simp at h
    · simp only [Except.ok.injEq] at h
      subst h
      constructor
      · intro i hi0 hi
        simp only [List.get_eq_getElem, List.getElem_map]
        have hi2 : i < (create_pulse_partition (sanitize_lengths lengths increments)
            (nan_phase_2_zero_ampl phases amps)).enum.length := by
          simpa using hi
        rw [List.getElem_enum]
        rw [if_neg (by omega : ¬ i = 0)]
      · intro b hb
        cases hpb : create_pulse_partition (sanitize_lengths lengths increments)
            (nan_phase_2_zero_ampl phases amps) with
        | nil =>
          rw [hpb] at hb
          simp at hb
        | cons q qs =>
          rw [hpb] at hb
          rw [List.enum_cons] at hb
          simp only [List.map_cons, List.head?_cons, Option.some.injEq] at hb
          rw [← hb]
          simp

theorem maskSelect_false (xs : List ℚ) (mask : List Bool)
    (hm : ∀ b ∈ mask, b = false) : maskSelect xs mask = [] := by
  rw [maskSelect]
  have : (xs.zip mask).filter (fun p => p.2) = [] := by
    rw [List.filter_eq_nil_iff]
    intro p hp
    have hp2 : (p.1, p.2) ∈ xs.zip mask := by rw [Prod.mk.eta]; exact hp
    have := hm p.2 (List.of_mem_zip hp2).2
    simp [this]
  rw [this]
  rfl

/-- C4 (amended): with equal-length amplitude, frequency and rabi-period
arrays, a rotation fraction of exactly 0 short-circuits `get_pi_element` to
the empty element list, for every phase, envelope mode, target-subsystem
argument and either value of `no_amps_2_idle`, raising no error. -/
theorem c4_zero_fraction_empty (ocGen : OcGenFn) (cat : List OptimalControlPulse)
    (xphase : ℚ) (mw_freqs mw_amps rabi_periods : List ℚ)
    (no_amps_2_idle : Bool) (env_type : EnvelopeMethods) (on_nv : Option (List ℚ))
    (hf : mw_freqs.length = mw_amps.length) (hr : rabi_periods.length = mw_amps.length) :
    get_pi_element ocGen cat xphase mw_freqs mw_amps rabi_periods 0 no_amps_2_idle
      env_type on_nv = .ok [] := by
  simp only [get_pi_element]
  have hxl : (if (no_amps_2_idle && decide ((mw_amps.filter fun a => a ≠ 0) = [])) = true
      then List.replicate mw_amps.length amp_placeholder else mw_amps).length
      = mw_amps.length := by
    split
    · simp
    · rfl
  rw [if_neg (by rw [hxl, hf, hr]; simp)]
  simp

/-- C10: in rectangular envelope mode the target-subsystem argument is inert —
two calls to `get_pi_element` that differ only in `on_nv` return the same
value (a supplied `on_nv` only triggers a logged warning). -/
theorem c10_on_nv_inert_rectangle (ocGen : OcGenFn) (cat : List OptimalControlPulse)
    (xphase : ℚ) (mw_freqs mw_amps rabi_periods : List ℚ) (pi_x_length : ℚ)
    (no_amps_2_idle : Bool) (onv1 onv2 : Option (List ℚ))
    (hpix : pi_x_length ≠ 0) :
    get_pi_element ocGen cat xphase mw_freqs mw_amps rabi_periods pi_x_length
        no_amps_2_idle .rectangle onv1
      = get_pi_element ocGen cat xphase mw_freqs mw_amps rabi_periods pi_x_length
        no_amps_2_idle .rectangle onv2 := by
  simp only [get_pi_element, ite_self]

theorem collect_oc_files_error (cat : List OptimalControlPulse) (pix : ℚ)
    (l : List ℚ) (h : ∃ nv ∈ l, (get_oc_pulse cat nv pix).length ≠ 1) :
    ∃ e, collect_oc_files cat pix l = .error e := by
  induction l with
  | nil => simp at h
  | cons x xs ih =>
    obtain ⟨nv, hmem, hcnt⟩ := h
    rcases List.mem_cons.mp hmem with hnx | hxs
    · subst hnx
      rw [collect_oc_files]
      cases hoc : get_oc_pulse cat nv pix with
      | nil => exact ⟨_, rfl⟩
      | cons a as =>
        cases as with
        | nil =>
          rw [hoc] at hcnt
          simp at hcnt
        | cons b bs => exact ⟨_, rfl⟩
    · rw [collect_oc_files]
      cases hoc : get_oc_pulse cat x pix with
      | nil => exact ⟨_, rfl⟩
      | cons a as =>
        cases as with
        | nil =>
          obtain ⟨e, he⟩ := ih ⟨nv, hxs, hcnt⟩
          rw [he]
          exact ⟨e, rfl⟩
        | cons b bs => exact ⟨_, rfl⟩

/-- C7 (amended): unless the all-zero-amplitude idle coercion of lines
2419-2422 fires (which forces the rectangular envelope), a call to
`get_pi_element` in optimal envelope mode with nonzero rotation fraction
raises when the target-subsystem parameter is unspecified, and raises when
the catalog lookup of some requested target does not resolve to exactly one
pulse. -/
theorem c7_optimal_mode_errors (ocGen : OcGenFn) (cat : List OptimalControlPulse)
    (xphase : ℚ) (mw_freqs mw_amps rabi_periods : List ℚ) (pi_x_length : ℚ)
    (no_amps_2_idle : Bool)
    (hpix : pi_x_length ≠ 0)
    (hnc : ¬(no_amps_2_idle = true ∧ (mw_amps.filter fun a => a ≠ 0) = [])) :
    (∃ e, get_pi_element ocGen cat xphase mw_freqs mw_amps rabi_periods pi_x_length
        no_amps_2_idle .optimal none = .error e)
  ∧ ∀ l : List ℚ, (∃ nv ∈ l, (get_oc_pulse cat nv pi_x_length).length ≠ 1) →
      ∃ e, get_pi_element ocGen cat xphase mw_freqs mw_amps rabi_periods pi_x_length
        no_amps_2_idle .optimal (some l) = .error e := by
  have hcb : (no_amps_2_idle && decide ((mw_amps.filter fun a => a ≠ 0) = [])) = false := by
    cases hno : no_amps_2_idle with
    | false => rw [Bool.false_and]
    | true =>
      rw [Bool.true_and, decide_eq_false_iff_not]
      intro hfil
      rw [hno] at hnc
      exact hnc ⟨rfl, hfil⟩
  constructor
  · simp only [get_pi_element, hcb, Bool.false_eq_true, if_false]
    split
    · exact ⟨_, rfl⟩
    · exact ⟨_, rfl⟩
  · intro l hl
    simp only [get_pi_element, hcb, Bool.false_eq_true, if_false]
    split
    · exact ⟨_, rfl⟩
    · rw [_get_pi_oc_element]
      split
      · obtain ⟨e, he⟩ := collect_oc_files_error cat pi_x_length l hl
        rw [he]
        exact ⟨e, rfl⟩
      · exact ⟨_, rfl⟩

/-- C5 (amended): in the rotation-pulse builder the idle-placeholder coercion
is collective, not per-channel — when `no_amps_2_idle` is true and EVERY
requested amplitude is zero, the call behaves exactly as if all channels had
the placeholder amplitude `1e-99` under a rectangular envelope; when
`no_amps_2_idle` is false and every amplitude is zero, the channels are
silently dropped and the rectangular call returns the empty element list. -/
theorem c5_no_amps_policy (ocGen : OcGenFn) (cat : List OptimalControlPulse)
    (xphase : ℚ) (mw_freqs mw_amps rabi_periods : List ℚ) (pi_x_length : ℚ)
    (env_type : EnvelopeMethods) (on_nv : Option (List ℚ))
    (hzero : ∀ a ∈ mw_amps, a = 0)
    (hf : mw_freqs.length = mw_amps.length) (hr : rabi_periods.length = mw_amps.length) :
    (get_pi_element ocGen cat xphase mw_freqs mw_amps rabi_periods pi_x_length true
        env_type on_nv
      = get_pi_element ocGen cat xphase mw_freqs
          (List.replicate mw_amps.length amp_placeholder) rabi_periods pi_x_length true
          .rectangle on_nv)
  ∧ get_pi_element ocGen cat xphase mw_freqs mw_amps rabi_periods pi_x_length false
      .rectangle on_nv = .ok [] := by
  have hfil : (mw_amps.filter fun a => a ≠ 0) = [] := by
    rw [List.filter_eq_nil_iff]
    intro a ha
    simp [hzero a ha]
  constructor
  · by_cases hlen0 : mw_amps.length = 0
    · rw [List.length_eq_zero] at hlen0
      subst hlen0
      rfl
    · have hrep : ((List.replicate mw_amps.length amp_placeholder).filter
          fun a => a ≠ 0) = List.replicate mw_amps.length amp_placeholder := by
        rw [List.filter_eq_self]
        intro a ha
        rw [List.eq_of_mem_replicate ha]
        simp [amp_placeholder]
      have hcl : (true && decide ((mw_amps.filter fun a => a ≠ 0) = [])) = true := by
        rw [hfil]
        simp
      have hcr : (true && decide (((List.replicate mw_amps.length amp_placeholder).filter
          fun a => a ≠ 0) = [])) = false := by
        rw [hrep]
        simp [List.replicate_eq_nil_iff, hlen0]
      simp only [get_pi_element, hcl, hcr, Bool.false_eq_true, if_false, if_true,
        List.length_replicate]
  · simp only [get_pi_element, Bool.false_and, Bool.false_eq_true, if_false]
    have hmask : ∀ b ∈ mw_amps.map (fun a => decide (a ≠ 0)), b = false := by
      intro b hb
      obtain ⟨a, ha, hab⟩ := List.mem_map.mp hb
      rw [← hab]
      simp [hzero a ha]
    rw [if_neg (by rw [hf, hr]; simp)]
    rw [maskSelect_false _ _ hmask, maskSelect_false _ _ hmask, hfil]
    by_cases hp0 : pi_x_length = 0
    · rw [if_pos hp0]
    · rw [if_neg hp0]
      rfl

/-- C8 (amended): with an isolation index and a subsystem count supplied (and
no reordering), `_create_param_array` raises exactly when the isolation index
is out of range; a flat-array length that is not divisible by the subsystem
count raises nothing — the chunk size is truncated by integer division. -/
theorem c8_isolation_index_check (in_value : ℚ) (in_list : List ℚ) (n idx : ℕ) :
    (idx ≥ n → ∃ e, _create_param_array in_value in_list (some n) (some idx) none
        = .error e)
  ∧ (idx < n → ∃ out, _create_param_array in_value in_list (some n) (some idx) none
        = .ok out) := by
  constructor
  · intro hge
    unfold _create_param_array
    dsimp only
    rw [if_pos hge]
    exact ⟨_, rfl⟩
  · intro hlt
    unfold _create_param_array
    dsimp only
    rw [if_neg (by omega)]
    exact ⟨_, rfl⟩

/-- C9 (amended): with no reordering and no isolation, a truthy (nonzero)
primary value is prepended to the additional list, giving output length
`1 + len(in_list)`; a zero primary value is falsy in Python and is dropped,
giving just the additional list. -/
theorem c9_param_concatenation (in_value : ℚ) (in_list : List ℚ) :
    (in_value ≠ 0 → _create_param_array in_value in_list none none none
        = .ok (in_value :: in_list))
  ∧ _create_param_array 0 in_list none none none = .ok in_list := by
  constructor
  · intro hv
    unfold _create_param_array
    dsimp only
    rw [if_pos hv]
    rfl
  · unfold _create_param_array
    dsimp only
    rw [if_neg (by simp)]
    rfl

section ConcreteEvaluations

attribute [local semireducible] Rat.add Rat.mul Rat.inv Rat.sub

/-- C2: evaluation at the failing input — during initialisation
`self._optimal_pulses` is `[]` (source lines 79-86), so the duplicate check of
line 199 consults the empty field rather than the pulses loaded so far:
loading two file pairs that both parse to `(on_nv=1, pix=1)` keeps BOTH, and
the resulting catalog holds two entries for the key `(1, 1)` instead of one. -/
theorem c2_duplicate_pulses_both_kept :
    load_optimal_pulses_from_path []
        [⟨1, 1, "a_amplitude.txt", "a_phase.txt"⟩, ⟨1, 1, "b_amplitude.txt", "b_phase.txt"⟩]
      = [⟨1, 1, "a_amplitude.txt", "a_phase.txt"⟩, ⟨1, 1, "b_amplitude.txt", "b_phase.txt"⟩]
  ∧ (get_oc_pulse (load_optimal_pulses_from_path []
        [⟨1, 1, "a_amplitude.txt", "a_phase.txt"⟩, ⟨1, 1, "b_amplitude.txt", "b_phase.txt"⟩])
        1 1).length = 2 := by
  constructor
  · rfl
  · rfl

/-- C3: two-channel worked example of the partition — channel A duration 50,
amplitude 0.1; channel B duration 30, amplitude 0.2 — two segments: 30 with
amplitudes `[0.1, 0.2]`, then 20 with amplitudes `[0.1, 0]`. -/
theorem c3_two_channel_worked_example :
    create_pulse_partition [50, 30] [1/10, 2/10]
      = [(30, [1/10, 2/10]), (20, [1/10, 0])] := by decide

/-- C1 witness: the spec example — durations `[100, 10, 10]`, amplitudes
`[0.1, 0.2, 0.3]` — has per-channel active-duration sums exactly
`[100, 10, 10]`. -/
theorem c1_partition_completeness_witness :
    activeDurationSum 0 (create_pulse_partition [100, 10, 10] [1/10, 2/10, 3/10]) = 100
  ∧ activeDurationSum 1 (create_pulse_partition [100, 10, 10] [1/10, 2/10, 3/10]) = 10
  ∧ activeDurationSum 2 (create_pulse_partition [100, 10, 10] [1/10, 2/10, 3/10]) = 10 :=
  ⟨(c1_partition_completeness [100, 10, 10] [1/10, 2/10, 3/10] (by decide) (by decide)
      (by decide) 0 (by decide)).trans (by decide),
   (c1_partition_completeness [100, 10, 10] [1/10, 2/10, 3/10] (by decide) (by decide)
      (by decide) 1 (by decide)).trans (by decide),
   (c1_partition_completeness [100, 10, 10] [1/10, 2/10, 3/10] (by decide) (by decide)
      (by decide) 2 (by decide)).trans (by decide)⟩

/-- C4 counterexample: with `pi_x_length = 0` but a rabi-period array longer
than the amplitude array, the call raises (numpy boolean-mask IndexError at
source line 2426, before the zero-fraction check of line 2433) instead of
returning the empty list. -/
theorem c4_counterexample :
    get_pi_element cGen0 [] 0 [1] [1] [1, 1] 0 false .rectangle none
      = .error "IndexError: boolean index did not match indexed array" := by decide

/-- C4 witness: a zero fraction with equal-length arrays returns `ok []` in
optimal mode with unspecified target. -/
theorem c4_zero_fraction_empty_witness :
    get_pi_element cGen0 [] 45 [1] [1] [1] 0 true .optimal none = .ok [] :=
  c4_zero_fraction_empty cGen0 [] 45 [1] [1] [1] true .optimal none rfl rfl

/-- C5 counterexample: with `no_amps_2_idle = true` and a zero-amplitude
channel ALONGSIDE a powered channel, the zero-amplitude channel is silently
dropped (single-channel output, no `1e-99` placeholder), refuting the claimed
per-channel coercion. -/
theorem c5_counterexample :
    get_pi_element cGen0 [] 0 [1, 1] [0, 1] [1, 1] 1 true .rectangle none
      = .ok [⟨1/2, 0, [1], [1], [some 0]⟩] := by decide

/-- C5 witness: instantiation of the amended policy at one zero-amplitude
channel. -/
theorem c5_no_amps_policy_witness :
    (get_pi_element cGen0 [] 0 [1] [0] [1] 1 true .optimal none
      = get_pi_element cGen0 [] 0 [1] (List.replicate ([(0 : ℚ)] : List ℚ).length
          amp_placeholder) [1] 1 true .rectangle none)
  ∧ get_pi_element cGen0 [] 0 [1] [0] [1] 1 false .rectangle none = .ok [] :=
  c5_no_amps_policy cGen0 [] 0 [1] [0] [1] 1 .optimal none (by decide) rfl rfl

/-- C6 counterexample: a successful call with nonzero common increment whose
only requested duration is negative returns no segments at all, so no
returned segment carries the increment. -/
theorem c6_counterexample :
    _get_multiple_mw_mult_length_element [-1] [1] [1/2] [1] [some 0] = .ok []
  ∧ (1 : ℚ) ≠ 0 := by
  constructor
  · decide
  · decide

/-- C6 witness: instantiation of the swept-term uniqueness at a successful
two-channel call with common increment 3. -/
theorem c6_swept_term_uniqueness_witness :
    (∀ i : ℕ, 0 < i → ∀ hi : i < ([⟨1, 3, [1, 1], [1, 1], [some 0, some 0]⟩,
        ⟨1, 0, [0, 1], [1, 1], [some 0, some 0]⟩] : List MWElement).length,
      (([⟨1, 3, [1, 1], [1, 1], [some 0, some 0]⟩,
        ⟨1, 0, [0, 1], [1, 1], [some 0, some 0]⟩] : List MWElement).get ⟨i, hi⟩).increment_s
        = 0)
  ∧ (∀ b : MWElement, ([⟨1, 3, [1, 1], [1, 1], [some 0, some 0]⟩,
        ⟨1, 0, [0, 1], [1, 1], [some 0, some 0]⟩] : List MWElement).head? = some b →
      b.increment_s = ([3, 3] : List ℚ).getD 0 0) :=
  c6_swept_term_uniqueness [1, 2] [3, 3] [1, 1] [1, 1] [some 0, some 0] _ (by decide)

set_option maxRecDepth 4000 in
/-- C7 counterexample: a call with envelope mode optimal, nonzero fraction and
unspecified target raises NO error when `no_amps_2_idle` is true and all
amplitudes are zero — the coercion of source lines 2419-2422 silently forces
the rectangular envelope. -/
theorem c7_counterexample :
    get_pi_element cGen0 [] 0 [1] [0] [1] 1 true .optimal none
      = .ok [⟨1/2, 0, [amp_placeholder], [1], [some 0]⟩] := by decide

/-- C7 witness: outside the coercion case, an unspecified target raises, and a
catalog lookup that does not resolve to exactly one pulse raises. -/
theorem c7_optimal_mode_errors_witness :
    (∃ e, get_pi_element cGen0 [] 0 [1] [1] [1] 1 false .optimal none = .error e)
  ∧ (∃ e, get_pi_element cGen0 [] 0 [1] [1] [1] 1 false .optimal (some [5]) = .error e) :=
  ⟨(c7_optimal_mode_errors cGen0 [] 0 [1] [1] [1] 1 false (by decide) (by decide)).1,
   (c7_optimal_mode_errors cGen0 [] 0 [1] [1] [1] 1 false (by decide) (by decide)).2
     [5] ⟨5, by decide, by decide⟩⟩

/-- C8 counterexample: isolating subsystem 0 of 2 on a flat array of length 5
(not divisible by 2) raises nothing — the chunk size is truncated to 2 and
the call returns normally. -/
theorem c8_counterexample :
    _create_param_array 1 [2, 3, 4, 5] (some 2) (some 0) none
      = .ok [1, 2, 0, 0, 0] := by decide

/-- C8 witness: the out-of-range isolation index raises; an in-range index
returns normally on the same non-divisible array. -/
theorem c8_isolation_index_check_witness :
    (∃ e, _create_param_array 1 [2, 3, 4, 5] (some 2) (some 5) none = .error e)
  ∧ (∃ out, _create_param_array 1 [2, 3, 4, 5] (some 2) (some 0) none = .ok out) :=
  ⟨(c8_isolation_index_check 1 [2, 3, 4, 5] 2 5).1 (by decide),
   (c8_isolation_index_check 1 [2, 3, 4, 5] 2 0).2 (by decide)⟩

/-- C9 counterexample: a zero primary value is falsy in Python and is dropped
from the concatenation — the output is `[5]`, of length 1, not `[0, 5]` of
length 2. -/
theorem c9_counterexample :
    _create_param_array 0 [5] none none none = .ok [5] := by decide

/-- C9 witness: a nonzero primary value is prepended; a zero one is dropped. -/
theorem c9_param_concatenation_witness :
    _create_param_array 1 [2] none none none = .ok [1, 2]
  ∧ _create_param_array 0 [2] none none none = .ok [2] :=
  ⟨(c9_param_concatenation 1 [2]).1 (by decide), (c9_param_concatenation 1 [2]).2⟩

/-- C10 witness: supplying a target subsystem on the rectangular path leaves
the output unchanged. -/
theorem c10_on_nv_inert_rectangle_witness :
    get_pi_element cGen0 [] 0 [1] [1] [1] 1 false .rectangle none
      = get_pi_element cGen0 [] 0 [1] [1] [1] 1 false .rectangle (some [1]) :=
  c10_on_nv_inert_rectangle cGen0 [] 0 [1] [1] [1] 1 false none (some [1]) (by decide)

end ConcreteEvaluations

end MultiNV
